import Mathlib

/-!
Verification of the Debate-Club backend core against its natural-language
specification.  The Python sources under `backend/` are shallowly embedded:
dataclasses become structures, in-place mutation becomes explicit state
passing, Python `dict`s become insertion-ordered association lists, Python
exceptions become `Option`/`Except` results, and Python floats are modelled
as exact rationals (`ℚ`) with `round(x, 2)` modelled as round-half-to-even
on hundredths.  Wall-clock timestamps (`created_at` fields) and
presentation-only strings (log lines, float formatting in feedback text)
are not modelled.
-/

namespace DebateClub

/-- `SessionStatus` from backend/models/session.py: lifecycle phases. -/
inductive SessionStatus where
  | lobby
  | veto
  | coin_toss
  | debating
  | finished
deriving DecidableEq, Repr

/-- `ParticipantRole` from backend/models/session.py. -/
inductive Role where
  | pro
  | con
deriving DecidableEq, Repr

/-- The `.value` of a `ParticipantRole` (its wire string). -/
def Role.value : Role → String
  | .pro => "pro"
  | .con => "con"

/-- The opposite role (used to state turn toggling). -/
def Role.flip : Role → Role
  | .pro => .con
  | .con => .pro

/-- `Participant` dataclass (joined_at timestamp omitted: wall clock). -/
structure Participant where
  session_id : String
  socket_id : Option String
  name : String
  role : Role
  connected : Bool := true
  vetoed_topic : Option String := none
  time_spent_seconds : Int := 0
deriving DecidableEq, Repr

/-- `Argument` dataclass (created_at timestamp omitted: wall clock). -/
structure Argument where
  speaker_role : Role
  speaker_name : String
  content : String
  turn_index : Nat := 0
  time_taken_seconds : Int := 0
  metadata : List (String × String) := []
deriving DecidableEq, Repr

/-- `DebateSession` dataclass (created_at and the attached result omitted;
`participants` is a Python dict keyed by role, embedded as an
insertion-ordered association list). -/
structure DebateSession where
  session_id : String
  invite_code : String
  status : SessionStatus := .lobby
  participants : List (Role × Participant) := []
  topic_options : List String := []
  chosen_topic : Option String := none
  transcript : List Argument := []
  current_turn : Option Role := none
  total_elapsed_seconds : Int := 0
  max_turns : Nat := 60
  per_turn_limit : Int := 30
  total_time_limit : Int := 600
  custom_topic_allowed : Bool := false
  metadata : List (String × String) := []
deriving DecidableEq, Repr

/-- `session.participants[role]` as a lookup (first match). -/
def lookupRole (ps : List (Role × Participant)) (r : Role) : Option Participant :=
  (ps.find? (fun p => p.1 = r)).map (fun p => p.2)

/-- `DebateSession.next_role` from backend/models/session.py lines 91-94. -/
def DebateSession.next_role (s : DebateSession) : Role :=
  if s.current_turn = some Role.pro then Role.con else Role.pro

/-- `DebateSession.record_argument` from backend/models/session.py lines
96-106.  `none` models the `KeyError` Python raises when the speaking role
has no participant (the argument is built from `self.participants[role].name`
before anything is appended, so on that error no state changes). -/
def DebateSession.record_argument (s : DebateSession) (role : Role) (content : String)
    (time_taken : Int) : Option (DebateSession × Argument) :=
  match lookupRole s.participants role with
  | none => none
  | some p =>
    let argument : Argument :=
      { speaker_role := role
        speaker_name := p.name
        content := content
        turn_index := s.transcript.length
        time_taken_seconds := time_taken }
    let s1 : DebateSession := { s with transcript := s.transcript ++ [argument] }
    some ({ s1 with current_turn := some s1.next_role }, argument)

/-- ASCII whitespace, as Python regular expressions class it with `\s`
(the sources only ever see ASCII text; wider Unicode whitespace is not
modelled). -/
def isPySpace (c : Char) : Bool :=
  c = ' ' || c = '\t' || c = '\n' || c = '\r' || c = '\x0b' || c = '\x0c'

/-- Python `str.strip()`: drop leading and trailing whitespace. -/
def pyStrip (s : String) : String :=
  ⟨((s.data.dropWhile isPySpace).reverse.dropWhile isPySpace).reverse⟩

/-- Python `len` on a string (code points). -/
def pyLen (s : String) : Nat := s.data.length

/-- Python `str.lower()` (ASCII case folding). -/
def pyLower (s : String) : String := ⟨s.data.map Char.toLower⟩

/-- `validate_argument_length` from backend/utils/validators.py lines 20-25,
returning the raised `ValidationError` message, or `none` when valid. -/
def validate_argument_length (message : String) : Option String :=
  if pyStrip message = "" then some "Argument cannot be empty"
  else if pyLen message > 2000 then some "Argument too long"
  else none

/-- Result of one socket handler invocation: the error the handler emitted
(if any) and the session state after the handler returned. -/
structure StepResult where
  error : Option String
  state : DebateSession
deriving DecidableEq, Repr

/-- `session.participants[role].time_spent_seconds += elapsed`. -/
def updateParticipantTime (ps : List (Role × Participant)) (r : Role) (elapsed : Int) :
    List (Role × Participant) :=
  ps.map (fun p =>
    if p.1 = r then (p.1, { p.2 with time_spent_seconds := p.2.time_spent_seconds + elapsed })
    else p)

/-- The `send_message` handler from backend/routes/websocket.py lines
112-152, restricted to its state transition: validate the message length,
require status `DEBATING`, require the sender to hold the current turn,
record the argument and accrue the elapsed turn time.  `elapsed` is the
value `timer_manager.consume_turn_time` returned (an external input). -/
def send_message (s : DebateSession) (role : Role) (message : String) (elapsed : Int) :
    StepResult :=
  match validate_argument_length message with
  | some e => ⟨some e, s⟩
  | none =>
    if s.status ≠ SessionStatus.debating then ⟨some "Debate not started", s⟩
    else if s.current_turn ≠ some role then ⟨some "Not your turn", s⟩
    else
      match s.record_argument role message elapsed with
      | none => ⟨some "KeyError", s⟩
      | some (s1, _) =>
        ⟨none,
          { s1 with
            participants := updateParticipantTime s1.participants role elapsed
            total_elapsed_seconds := s1.total_elapsed_seconds + elapsed }⟩

/-- `_handle_turn_timeout` from backend/routes/websocket.py lines 210-223:
when a turn role is live, charge it the full per-turn limit and toggle the
current turn.  `none` models the `KeyError` when the role has no
participant; a missing current turn returns with the state unchanged. -/
def handle_turn_timeout (s : DebateSession) : Option DebateSession :=
  match s.current_turn with
  | none => some s
  | some role =>
    match lookupRole s.participants role with
    | none => none
    | some _ =>
      some { s with
        participants := updateParticipantTime s.participants role s.per_turn_limit
        total_elapsed_seconds := s.total_elapsed_seconds + s.per_turn_limit
        current_turn := some s.next_role }

/-- One argument submission: who sends, the text, and the elapsed turn
seconds the timer reported. -/
structure Submission where
  role : Role
  message : String
  elapsed : Int
deriving DecidableEq, Repr

/-- Run a sequence of submissions through `send_message`, requiring every
one of them to be accepted (`none` as soon as one is rejected). -/
def run_submissions (s : DebateSession) : List Submission → Option DebateSession
  | [] => some s
  | sub :: rest =>
    let r := send_message s sub.role sub.message sub.elapsed
    match r.error with
    | none => run_submissions r.state rest
    | some _ => none

/-- A successful `send_message` leaves the status unchanged and flips the
current turn away from the sender. -/
theorem send_message_ok_step (s : DebateSession) (role : Role) (message : String)
    (elapsed : Int) (s2 : DebateSession)
    (h : send_message s role message elapsed = ⟨none, s2⟩) :
    s.current_turn = some role ∧ s2.current_turn = some role.flip ∧ s2.status = s.status := by
  unfold send_message at h
  split at h
  · exact absurd (congrArg StepResult.error h) (by simp)
  · split at h
    · exact absurd (congrArg StepResult.error h) (by simp)
    · split at h
      · exact absurd (congrArg StepResult.error h) (by simp)
      · rename_i hst hturn
        push_neg at hturn
        split at h
        · exact absurd (congrArg StepResult.error h) (by simp)
        · rename_i s1 arg hr
          have h2 := congrArg StepResult.state h
          simp only at h2
          unfold DebateSession.record_argument at hr
          cases hl : lookupRole s.participants role with
          | none => rw [hl] at hr; exact absurd hr (by simp)
          | some p =>
            rw [hl] at hr
            simp only [Option.some.injEq, Prod.mk.injEq] at hr
            obtain ⟨hs1, _⟩ := hr
            refine ⟨hturn, ?_, ?_⟩
            · rw [← h2, ← hs1]
              simp only [DebateSession.next_role]
              rw [hturn]
              cases role <;> simp [Role.flip]
            · rw [← h2, ← hs1]

/-- `Role.flip` iterated `n` times is the identity for even `n` and one flip
for odd `n`. -/
theorem flip_iterate (n : Nat) (r : Role) :
    Role.flip^[n] r = if n % 2 = 0 then r else r.flip := by
  induction n generalizing r with
  | zero => simp
  | succ n ih =>
    rw [Function.iterate_succ_apply, ih r.flip]
    rcases Nat.mod_two_eq_zero_or_one n with h | h
    · have h2 : (n + 1) % 2 = 1 := by omega
      simp [h, h2]
    · have h2 : (n + 1) % 2 = 0 := by omega
      cases r <;> simp [h, h2, Role.flip]

/-- Each accepted submission flips the turn, so a run of accepted
submissions flips it once per submission. -/
theorem run_submissions_iterate (subs : List Submission) :
    ∀ (s s' : DebateSession) (r : Role), s.current_turn = some r →
      run_submissions s subs = some s' →
      s'.current_turn = some (Role.flip^[subs.length] r) := by
  induction subs with
  | nil =>
    intro s s' r hr h
    simp only [run_submissions, Option.some.injEq] at h
    simp [← h, hr]
  | cons sub rest ih =>
    intro s s' r hr h
    simp only [run_submissions] at h
    cases herr : (send_message s sub.role sub.message sub.elapsed).error with
    | some e => rw [herr] at h; exact absurd h (by simp)
    | none =>
      rw [herr] at h
      have hstep := send_message_ok_step s sub.role sub.message sub.elapsed
        (send_message s sub.role sub.message sub.elapsed).state (by rw [← herr])
      have hrole : r = sub.role := by
        have := hstep.1
        rw [hr] at this
        exact Option.some.inj this
      have := ih (send_message s sub.role sub.message sub.elapsed).state s'
        sub.role.flip hstep.2.1 h
      rw [this, List.length_cons, Function.iterate_succ_apply, hrole]

/-- Claim C1: starting from Proponent, the current-turn role alternates:
after every accepted submission and after every turn-timeout the turn
toggles, so after any run of N accepted submissions the current turn is
Proponent when N is even and Opponent when N is odd. -/
theorem turn_alternation :
    (∀ (s s' : DebateSession) (subs : List Submission),
        s.current_turn = some Role.pro → run_submissions s subs = some s' →
        s'.current_turn = some (if subs.length % 2 = 0 then Role.pro else Role.con)) ∧
    (∀ (s s' : DebateSession) (r : Role),
        s.current_turn = some r → handle_turn_timeout s = some s' →
        s'.current_turn = some r.flip) := by
  constructor
  · intro s s' subs hpro hrun
    have := run_submissions_iterate subs s s' Role.pro hpro hrun
    rw [this, flip_iterate]
    simp [Role.flip]
  · intro s s' r hr h
    unfold handle_turn_timeout at h
    split at h
    · rename_i heq
      rw [hr] at heq
      exact absurd heq (by simp)
    · rename_i role heq
      obtain rfl : r = role := Option.some.inj (hr.symm.trans heq)
      split at h
      · exact absurd h (by simp)
      · simp only [Option.some.injEq] at h
        rw [← h]
        simp only [DebateSession.next_role, hr]
        cases r <;> simp [Role.flip]

/-- Claim C2: a submission is appended only when the session is Debating and
the sender holds the current turn; when either condition fails the handler
emits an error and the session state is exactly what it was. -/
theorem send_message_append_guard (s : DebateSession) (role : Role) (message : String)
    (elapsed : Int) :
    ((send_message s role message elapsed).error = none →
        s.status = SessionStatus.debating ∧ s.current_turn = some role ∧
        ∃ arg, (send_message s role message elapsed).state.transcript
          = s.transcript ++ [arg]) ∧
    (s.status ≠ SessionStatus.debating ∨ s.current_turn ≠ some role →
        (send_message s role message elapsed).error ≠ none ∧
        (send_message s role message elapsed).state = s) := by
  unfold send_message
  split
  · exact ⟨fun h => absurd h (by simp), fun _ => ⟨by simp, rfl⟩⟩
  · split
    · exact ⟨fun h => absurd h (by simp), fun _ => ⟨by simp, rfl⟩⟩
    · split
      · exact ⟨fun h => absurd h (by simp), fun _ => ⟨by simp, rfl⟩⟩
      · rename_i hst hturn
        push_neg at hst hturn
        split
        · refine ⟨fun h => absurd h (by simp), fun hcond => absurd hcond ?_⟩
          push_neg
          exact ⟨hst, hturn⟩
        · rename_i s1 arg hr
          constructor
          · intro _
            refine ⟨hst, hturn, arg, ?_⟩
            unfold DebateSession.record_argument at hr
            cases hl : lookupRole s.participants role with
            | none => rw [hl] at hr; exact absurd hr (by simp)
            | some p =>
              rw [hl] at hr
              simp only [Option.some.injEq, Prod.mk.injEq] at hr
              obtain ⟨hs1, harg⟩ := hr
              simp only [← hs1, harg]
          · intro hcond
            exact absurd hcond (by push_neg; exact ⟨hst, hturn⟩)

/-- A transcript whose entries carry their own position: entry `i` has
`turn_index = i`. -/
def contiguous (t : List Argument) : Prop :=
  ∀ i, (hi : i < t.length) → (t.get ⟨i, hi⟩).turn_index = i

/-- Appending one argument whose `turn_index` is the old length preserves
contiguity of turn indices. -/
theorem contiguous_append (t : List Argument) (arg : Argument)
    (hidx : arg.turn_index = t.length) (hc : contiguous t) :
    contiguous (t ++ [arg]) := by
  intro i hi
  simp only [List.get_eq_getElem]
  have hlen : i < t.length + 1 := by simpa using hi
  rcases Nat.lt_or_ge i t.length with hlt | hge
  · rw [List.getElem_append_left hlt]
    have := hc i hlt
    simpa [List.get_eq_getElem] using this
  · have hieq : i = t.length := by omega
    subst hieq
    simp [List.getElem_concat_length, hidx]

/-- Claim C3: a recorded argument gets `turn_index` equal to the pre-append
transcript length, the transcript grows by exactly that argument, and
contiguity of turn indices (0, 1, 2, ...) is preserved. -/
theorem record_argument_turn_index (s : DebateSession) (role : Role) (content : String)
    (time_taken : Int) (s' : DebateSession) (arg : Argument)
    (h : s.record_argument role content time_taken = some (s', arg)) :
    arg.turn_index = s.transcript.length ∧
    s'.transcript = s.transcript ++ [arg] ∧
    (contiguous s.transcript → contiguous s'.transcript) := by
  unfold DebateSession.record_argument at h
  cases hl : lookupRole s.participants role with
  | none => rw [hl] at h; exact absurd h (by simp)
  | some p =>
    rw [hl] at h
    simp only [Option.some.injEq, Prod.mk.injEq] at h
    obtain ⟨hs1, harg⟩ := h
    have hidx : arg.turn_index = s.transcript.length := by rw [← harg]
    have htr : s'.transcript = s.transcript ++ [arg] := by
      simp only [← hs1, ← harg]
    refine ⟨hidx, htr, fun hc => ?_⟩
    rw [htr]
    exact contiguous_append s.transcript arg hidx hc

/-- A concrete proponent used by the witnesses. -/
def samplePro : Participant :=
  { session_id := "s1", socket_id := none, name := "Alice", role := Role.pro }

/-- A concrete opponent used by the witnesses. -/
def sampleCon : Participant :=
  { session_id := "s1", socket_id := none, name := "Bob", role := Role.con }

/-- A concrete mid-debate session used by the witnesses. -/
def sampleDebating : DebateSession :=
  { session_id := "s1", invite_code := "ABC123", status := SessionStatus.debating,
    participants := [(Role.pro, samplePro), (Role.con, sampleCon)],
    current_turn := some Role.pro }

/-- Two accepted submissions for the turn-alternation witness. -/
def sampleSubs : List Submission :=
  [⟨Role.pro, "hello there", 5⟩, ⟨Role.con, "indeed so", 7⟩]

/-- The state after running `sampleSubs` from `sampleDebating`. -/
def sampleRun : DebateSession :=
  (run_submissions sampleDebating sampleSubs).getD sampleDebating

/-- Witness for `turn_alternation` at a concrete session and two accepted
submissions: the turn is back at Proponent. -/
theorem turn_alternation_witness :
    sampleDebating.current_turn = some Role.pro ∧
    run_submissions sampleDebating sampleSubs = some sampleRun ∧
    sampleRun.current_turn
      = some (if sampleSubs.length % 2 = 0 then Role.pro else Role.con) :=
  ⟨rfl, by decide, turn_alternation.1 sampleDebating sampleRun sampleSubs rfl (by decide)⟩

/-- A concrete lobby-phase session for the rejection witness. -/
def sampleLobby : DebateSession :=
  { sampleDebating with status := SessionStatus.lobby }

/-- Witness for `send_message_append_guard`: a submission to a session still
in the lobby is rejected and the state is untouched. -/
theorem send_message_append_guard_witness :
    (send_message sampleLobby Role.pro "hello" 3).error ≠ none ∧
    (send_message sampleLobby Role.pro "hello" 3).state = sampleLobby :=
  (send_message_append_guard sampleLobby Role.pro "hello" 3).2 (Or.inl (by decide))

/-- The concrete result of recording an argument on `sampleDebating`. -/
def sampleRec : DebateSession × Argument :=
  (sampleDebating.record_argument Role.pro "hello" 3).getD
    (sampleDebating, { speaker_role := Role.pro, speaker_name := "", content := "" })

/-- Witness for `record_argument_turn_index` at a concrete session. -/
theorem record_argument_turn_index_witness :
    sampleDebating.record_argument Role.pro "hello" 3 = some (sampleRec.1, sampleRec.2) ∧
    sampleRec.2.turn_index = sampleDebating.transcript.length :=
  ⟨by decide, (record_argument_turn_index sampleDebating Role.pro "hello" 3
      sampleRec.1 sampleRec.2 (by decide)).1⟩

/-- Python `round(x)` to an integer: round half to even (model of CPython
rounding, with floats read as exact rationals). -/
def pyRoundInt (q : ℚ) : ℤ :=
  if q - ⌊q⌋ < 1/2 then ⌊q⌋
  else if 1/2 < q - ⌊q⌋ then ⌊q⌋ + 1
  else if ⌊q⌋ % 2 = 0 then ⌊q⌋ else ⌊q⌋ + 1

/-- Python `round(x, 2)`: round to hundredths, half to even. -/
def round2 (q : ℚ) : ℚ := (pyRoundInt (q * 100) : ℚ) / 100

/-- Rounding to an integer never overshoots an integer bound. -/
theorem pyRoundInt_le (q : ℚ) (n : ℤ) (h : q ≤ n) : pyRoundInt q ≤ n := by
  unfold pyRoundInt
  have hfl : ⌊q⌋ ≤ n := by
    have := Int.floor_le_floor h
    simpa using this
  split
  · exact hfl
  · rename_i hfrac
    push_neg at hfrac
    have hfloor : (⌊q⌋ : ℚ) < q := by
      have h0 : (0:ℚ) < 1/2 := by norm_num
      linarith
    have hq : ⌊q⌋ < n := by
      have hcast : ((⌊q⌋ : ℤ) : ℚ) < (n : ℚ) := lt_of_lt_of_le hfloor h
      exact_mod_cast hcast
    split
    · omega
    · split <;> omega

/-- `round(x, 2)` of a value at most `1/2` stays at most `1/2`. -/
theorem round2_le_half (q : ℚ) (h : q ≤ 1/2) : round2 q ≤ 1/2 := by
  unfold round2
  have h100 : q * 100 ≤ ((50 : ℤ) : ℚ) := by push_cast; linarith
  have := pyRoundInt_le (q * 100) 50 h100
  have hc : ((pyRoundInt (q * 100) : ℤ) : ℚ) ≤ 50 := by exact_mod_cast this
  linarith

/-- `EVIDENCE_KEYWORDS` from backend/services/gemini.py lines 247-258. -/
def EVIDENCE_KEYWORDS : List String :=
  ["according to", "study", "report", "data", "survey", "research",
   "evidence", "analysis", "statistic", "%"]

/-- `CONNECTOR_KEYWORDS` from backend/services/gemini.py lines 260-273. -/
def CONNECTOR_KEYWORDS : List String :=
  ["because", "therefore", "however", "moreover", "furthermore", "meanwhile",
   "consequently", "additionally", "firstly", "secondly", "finally",
   "nevertheless"]

/-- `FALLACY_KEYWORDS` from backend/services/gemini.py lines 275-283. -/
def FALLACY_KEYWORDS : List String :=
  ["ad hominem", "strawman", "slippery slope", "red herring",
   "false dichotomy", "appeal to emotion", "bandwagon"]

/-- `TOPIC_RULES` from backend/services/gemini.py lines 285-306: rule name,
topic-match keywords, content keywords, in dict-literal order. -/
def TOPIC_RULES : List (String × List String × List String) :=
  [("ai", (["ai", "artificial intelligence", "automation", "machine learning"],
           ["algorithm", "data", "model", "bias", "ethics", "automation"])),
   ("climate", (["climate", "emission", "carbon", "warming", "environment"],
                ["carbon", "emissions", "renewable", "solar", "climate", "resilience"])),
   ("governance", (["government", "policy", "regulation", "law", "state"],
                   ["policy", "regulation", "compliance", "oversight", "legislation"])),
   ("education", (["school", "education", "university", "students"],
                  ["curriculum", "learning", "teacher", "students", "assessment"])),
   ("economy", (["economy", "economic", "jobs", "trade", "market"],
                ["investment", "growth", "employment", "inflation", "market"]))]

/-- Python `text.count(sub)`: non-overlapping occurrences, scanning left to
right (0 for the empty pattern here; callers guard `if keyword`). -/
def countOcc (kw : List Char) : List Char → Nat
  | [] => 0
  | c :: rest =>
    if kw.isPrefixOf (c :: rest) && !kw.isEmpty then
      1 + countOcc kw (rest.drop (kw.length - 1))
    else
      countOcc kw rest
termination_by l => l.length
decreasing_by
  · simp only [List.length_cons, List.length_drop]
    omega
  · simp only [List.length_cons]
    omega

/-- Python `sub in text` (substring containment). -/
def isSubstring (kw : List Char) : List Char → Bool
  | [] => kw.isEmpty
  | c :: rest => kw.isPrefixOf (c :: rest) || isSubstring kw rest

/-- `_count_keyword_hits` from backend/services/gemini.py lines 470-475. -/
def countKeywordHits (text_lower : String) (keywords : List String) : Nat :=
  keywords.foldl
    (fun hits kw => if kw = "" then hits else hits + countOcc kw.data text_lower.data) 0

/-- A regex word character (`\w`, ASCII). -/
def isWordChar (c : Char) : Bool := c.isAlphanum || c = '_'

/-- Scanner counting the matches of `\b\d+\b`: maximal digit runs whose
neighbours (when present) are non-word characters.  `prevWord` records
whether the previous character was a word character. -/
def numTokAux (prevWord : Bool) : List Char → Nat
  | [] => 0
  | c :: rest =>
    if c.isDigit && !prevWord then
      let after := rest.dropWhile Char.isDigit
      (match after with
       | [] => 1
       | a :: _ => if isWordChar a then 0 else 1) + numTokAux true after
    else
      numTokAux (isWordChar c) rest
termination_by l => l.length
decreasing_by
  · simp only [List.length_cons]
    have := (List.dropWhile_sublist (l := rest) (p := Char.isDigit)).length_le
    omega
  · simp only [List.length_cons]
    omega

/-- `_count_numeric_tokens` from backend/services/gemini.py lines 466-467:
`len(re.findall(r"\b\d+\b", text))`. -/
def countNumericTokens (s : String) : Nat := numTokAux false s.data

/-- `re.split` on a single-character class: split at every matching
character, keeping empty parts. -/
def splitOnPred (p : Char → Bool) : List Char → List (List Char)
  | [] => [[]]
  | c :: rest =>
    if p c then [] :: splitOnPred p rest
    else
      match splitOnPred p rest with
      | [] => [[c]]
      | t :: ts => (c :: t) :: ts

/-- `_count_words` from backend/services/gemini.py lines 461-463: the number
of maximal whitespace-separated tokens. -/
def countWords (text : String) : Nat :=
  ((splitOnPred isPySpace text.data).filter (fun t => t ≠ [])).length

/-- `str.strip()` on a character list. -/
def stripChars (l : List Char) : List Char :=
  ((l.dropWhile isPySpace).reverse.dropWhile isPySpace).reverse

/-- `_sentence_clarity_bonus` from backend/services/gemini.py lines 478-490:
reward average sentence length near 20 words. -/
def sentenceClarityBonus (text : String) : ℚ :=
  let sentences := ((splitOnPred (fun c => c = '.' || c = '!' || c = '?') text.data).map
      stripChars).filter (fun t => t ≠ [])
  if sentences = [] then 0
  else
    let words_per_sentence := sentences.map (fun sentence => max 1 (countWords ⟨sentence⟩))
    let average : ℚ := ((words_per_sentence.sum : ℚ)) / (words_per_sentence.length : ℚ)
    let deviation := |average - 20|
    let clarity := max 0 (1 - deviation / 20)
    round2 clarity

/-- `_time_efficiency_penalty` from backend/services/gemini.py lines
493-498 (`not time_taken` is `time_taken = 0` once the caller has replaced
a missing value by `0.0`). -/
def timeEfficiencyPenalty (time_taken : ℚ) : ℚ :=
  if time_taken = 0 then 1/4
  else
    let deviation := |time_taken - 30|
    let penalty := min (deviation / 60) (1/2)
    round2 penalty

/-- `_identify_topic_profiles` from backend/services/gemini.py lines
443-449. -/
def identifyTopicProfiles (topic : String) : List String :=
  let topic_lower := pyLower topic
  TOPIC_RULES.foldl
    (fun profiles rule =>
      if rule.2.1.any (fun kw => isSubstring kw.data topic_lower.data)
      then profiles ++ [rule.1] else profiles) []

/-- `_topic_specific_bonus` from backend/services/gemini.py lines 452-458. -/
def topicSpecificBonus (text_lower : String) (topic_profiles : List String) : ℚ :=
  let bonus := topic_profiles.foldl
    (fun bonus profile =>
      let keywords := ((TOPIC_RULES.find? (fun r => r.1 = profile)).map
        (fun r => r.2.2)).getD []
      let hitCount := countKeywordHits text_lower keywords
      bonus + min ((hitCount : ℚ) * (1/5)) (3/5)) 0
  min bonus 1

/-- `_label_for_score` from backend/services/gemini.py lines 591-600. -/
def labelForScore (score : ℚ) : String :=
  if 17/2 ≤ score then "Outstanding"
  else if 7 ≤ score then "Strong"
  else if 11/2 ≤ score then "Competent"
  else if 4 ≤ score then "Developing"
  else "Needs Improvement"

/-- `_deduplicate` from backend/services/gemini.py lines 563-570: keep first
occurrences, drop empty strings. -/
def dedup (items : List String) : List String :=
  items.foldl
    (fun ordered item =>
      if item ≠ "" && !ordered.contains item then ordered ++ [item] else ordered) []

/-- One entry of the `arguments_payload` list built in `score_arguments`
(backend/services/gemini.py lines 128-137): turn, role, speaker, content
and time taken of one transcript argument. -/
structure ArgPayload where
  turn : Nat
  role : String
  speaker : String
  content : String
  time_taken : ℚ
deriving DecidableEq, Repr

/-- The `result` record `_score_argument` builds (its `feedback` string only
concatenates the numeric feature notes for display and is not modelled). -/
structure ScoredArgument where
  turn : Nat
  role : String
  score : ℚ
  rating : String
  strengths : List String
  improvements : List String
deriving DecidableEq, Repr

/-- The full return value of `_score_argument`. -/
structure ScoreEval where
  result : ScoredArgument
  strength_notes : List String
  improvement_notes : List String
deriving DecidableEq, Repr

/-- `_score_argument` from backend/services/gemini.py lines 351-440: the
heuristic per-argument score, 5.0 baseline plus bounded feature bonuses and
penalties, clamped to [1, 10], with the derived rating label and note
lists. -/
def scoreArgument (argument : ArgPayload) (topic_profiles : List String) : ScoreEval :=
  let content := argument.content
  let role := argument.role
  let turn := argument.turn
  let time_taken := argument.time_taken
  let text_lower := pyLower content
  let word_count := countWords content
  let length_bonus : ℚ := min ((word_count : ℚ) / 50) 3
  let strengths_l : List String :=
    if 1 ≤ length_bonus then ["Developed the point with substantive detail."] else []
  let improvements_l : List String :=
    if 1 ≤ length_bonus then []
    else if word_count < 40 then ["Spend more time elaborating on the claim."] else []
  let evidence_hits := countKeywordHits text_lower EVIDENCE_KEYWORDS
    + countNumericTokens content
  let evidence_bonus : ℚ := min ((evidence_hits : ℚ) * (1/2)) 2
  let strengths_e : List String :=
    if evidence_bonus ≠ 0 then ["Referenced evidence or data."] else []
  let improvements_e : List String :=
    if evidence_bonus ≠ 0 then [] else ["Cite data or examples to anchor the reasoning."]
  let connector_hits := countKeywordHits text_lower CONNECTOR_KEYWORDS
  let connector_bonus : ℚ := min ((connector_hits : ℚ) * (3/10)) 1
  let strengths_c : List String :=
    if connector_bonus ≠ 0 then ["Used logical connectors to structure the flow."] else []
  let improvements_c : List String :=
    if connector_bonus ≠ 0 then []
    else ["Signal transitions with connectors to improve clarity."]
  let clarity_bonus := sentenceClarityBonus content
  let strengths_cl : List String :=
    if 1/2 ≤ clarity_bonus then ["Sentences were clear and well-paced."] else []
  let improvements_cl : List String :=
    if 1/2 ≤ clarity_bonus then []
    else ["Balance sentence lengths for smoother delivery."]
  let fallacy_hits := countKeywordHits text_lower FALLACY_KEYWORDS
  let fallacy_penalty : ℚ := (fallacy_hits : ℚ) * 1
  let improvements_f : List String :=
    if fallacy_hits ≠ 0 then ["Avoid common logical fallacies in rebuttals."] else []
  let time_penalty := timeEfficiencyPenalty time_taken
  let improvements_t : List String :=
    if 1/4 < time_penalty then ["Align pacing closer to the allotted time."] else []
  let topic_bonus := topicSpecificBonus text_lower topic_profiles
  let strengths_tp : List String :=
    if topic_bonus ≠ 0 then ["Connected arguments to the specific debate theme."] else []
  let improvements_tp : List String :=
    if topic_bonus ≠ 0 then []
    else ["Tie arguments explicitly to the topic\x27s core issues."]
  let score : ℚ := 5 + length_bonus + evidence_bonus + connector_bonus + clarity_bonus
    - fallacy_penalty - time_penalty + topic_bonus
  let strengths := strengths_l ++ strengths_e ++ strengths_c ++ strengths_cl ++ strengths_tp
  let improvements := improvements_l ++ improvements_e ++ improvements_c ++ improvements_cl
    ++ improvements_f ++ improvements_t ++ improvements_tp
  let final_score : ℚ := max 1 (min 10 (round2 score))
  let rating := labelForScore final_score
  { result :=
      { turn := turn, role := role, score := final_score, rating := rating,
        strengths := dedup strengths, improvements := dedup improvements }
    strength_notes := dedup strengths
    improvement_notes := dedup improvements }

/-- Claim C4: the heuristic per-argument score always lies in [1, 10],
whatever the content, role, timing or topic profiles. -/
theorem score_argument_within_bounds (argument : ArgPayload) (topic_profiles : List String) :
    1 ≤ (scoreArgument argument topic_profiles).result.score ∧
    (scoreArgument argument topic_profiles).result.score ≤ 10 := by
  unfold scoreArgument
  refine ⟨le_max_left 1 _, ?_⟩
  exact max_le (by norm_num) (min_le_left 10 _)

/-- Claim C5: the heuristic per-argument evaluation is a deterministic
function of the argument text, role, turn and timing together with the
topic: two payloads agreeing on those fields (the speaker name is free to
differ) evaluate identically. -/
theorem score_argument_deterministic (a b : ArgPayload) (topic : String)
    (hc : a.content = b.content) (hr : a.role = b.role) (ht : a.turn = b.turn)
    (htt : a.time_taken = b.time_taken) :
    scoreArgument a (identifyTopicProfiles topic)
      = scoreArgument b (identifyTopicProfiles topic) := by
  obtain ⟨ta, ra, sa, ca, tta⟩ := a
  obtain ⟨tb, rb, sb, cb, ttb⟩ := b
  simp only at hc hr ht htt
  subst hc hr ht htt
  rfl

/-- Witness for `score_argument_deterministic`: two concrete payloads that
differ only in the speaker name score identically. -/
theorem score_argument_deterministic_witness :
    scoreArgument ⟨0, "pro", "Alice", "Because data shows 42 gains.", 30⟩
        (identifyTopicProfiles "AI policy")
      = scoreArgument ⟨0, "pro", "Zoe", "Because data shows 42 gains.", 30⟩
        (identifyTopicProfiles "AI policy") :=
  score_argument_deterministic _ _ "AI policy" rfl rfl rfl rfl

/-- Claim C10: the time-efficiency penalty is the flat 1/4 when the turn
time is zero or missing, follows `round2 (min (|t - 30| / 60) (1/2))`
otherwise, and never exceeds 1/2. -/
theorem time_efficiency_penalty_spec :
    (∀ t : ℚ, timeEfficiencyPenalty t ≤ 1/2) ∧
    timeEfficiencyPenalty 0 = 1/4 ∧
    (∀ t : ℚ, t ≠ 0 → timeEfficiencyPenalty t = round2 (min (|t - 30| / 60) (1/2))) := by
  refine ⟨?_, by norm_num [timeEfficiencyPenalty], ?_⟩
  · intro t
    unfold timeEfficiencyPenalty
    split
    · norm_num
    · exact round2_le_half _ (min_le_right _ _)
  · intro t ht
    simp [timeEfficiencyPenalty, ht]

/-- Witness for `time_efficiency_penalty_spec` at `t = 45`: the penalty is
the rounded deviation formula and is within the bound. -/
theorem time_efficiency_penalty_spec_witness :
    (45 : ℚ) ≠ 0 ∧ timeEfficiencyPenalty 45 = round2 (min (|(45 : ℚ) - 30| / 60) (1/2)) ∧
    timeEfficiencyPenalty 45 ≤ 1/2 :=
  ⟨by norm_num, time_efficiency_penalty_spec.2.2 45 (by norm_num),
    time_efficiency_penalty_spec.1 45⟩

/-- `d.get(key, default)` on a Python dict embedded as an insertion-ordered
association list (keys are unique): first match or the default. -/
def pyDictGet : List (String × ℚ) → String → ℚ → ℚ
  | [], _, dflt => dflt
  | kv :: rest, k, dflt => if kv.1 = k then kv.2 else pyDictGet rest k dflt

/-- `d[key] = value` on a Python dict embedded as an insertion-ordered
association list: overwrite the key in place, or append a new key at the
end. -/
def pyDictSet : List (String × ℚ) → String → ℚ → List (String × ℚ)
  | [], k, v => [(k, v)]
  | kv :: rest, k, v =>
    if kv.1 = k then (k, v) :: rest else kv :: pyDictSet rest k v

/-- Insert into a list kept sorted by strictly greater value first; on equal
values the inserted element goes after the existing ones (the stability of
Python `sorted`). -/
def insertDesc (x : String × ℚ) : List (String × ℚ) → List (String × ℚ)
  | [] => [x]
  | y :: ys => if y.2 < x.2 then x :: y :: ys else y :: insertDesc x ys

/-- Python `sorted(items, key=value, reverse=True)` (stable). -/
def sortDescByVal (l : List (String × ℚ)) : List (String × ℚ) :=
  l.foldl (fun acc x => insertDesc x acc) []

/-- Membership through `insertDesc`. -/
theorem mem_insertDesc (x a : String × ℚ) (l : List (String × ℚ)) :
    a ∈ insertDesc x l ↔ a = x ∨ a ∈ l := by
  induction l with
  | nil => simp [insertDesc]
  | cons y ys ih =>
    unfold insertDesc
    split
    · simp
    · simp only [List.mem_cons, ih]
      tauto

/-- `insertDesc` preserves the value-descending pairwise order. -/
theorem sorted_insertDesc (x : String × ℚ) (l : List (String × ℚ))
    (h : l.Pairwise (fun a b => b.2 ≤ a.2)) :
    (insertDesc x l).Pairwise (fun a b => b.2 ≤ a.2) := by
  induction l with
  | nil => simp [insertDesc]
  | cons y ys ih =>
    unfold insertDesc
    rw [List.pairwise_cons] at h
    obtain ⟨hy, hys⟩ := h
    split
    · rename_i hlt
      refine List.Pairwise.cons ?_ (List.Pairwise.cons hy hys)
      intro b hb
      rcases List.mem_cons.mp hb with rfl | hb
      · exact le_of_lt hlt
      · exact (hy b hb).trans (le_of_lt hlt)
    · rename_i hnlt
      push_neg at hnlt
      refine List.Pairwise.cons ?_ (ih hys)
      intro b hb
      rcases (mem_insertDesc x b ys).mp hb with rfl | hb
      · exact hnlt
      · exact hy b hb

/-- The insertion sort is sorted (value-descending). -/
theorem sorted_sortDescByVal (l : List (String × ℚ)) :
    (sortDescByVal l).Pairwise (fun a b => b.2 ≤ a.2) := by
  unfold sortDescByVal
  suffices h : ∀ (acc : List (String × ℚ)), acc.Pairwise (fun a b => b.2 ≤ a.2) →
      (l.foldl (fun acc x => insertDesc x acc) acc).Pairwise (fun a b => b.2 ≤ a.2) by
    exact h [] (by simp)
  induction l with
  | nil => intro acc hacc; simpa using hacc
  | cons x xs ih =>
    intro acc hacc
    exact ih (insertDesc x acc) (sorted_insertDesc x acc hacc)

/-- The insertion sort preserves membership. -/
theorem mem_sortDescByVal (a : String × ℚ) (l : List (String × ℚ)) :
    a ∈ sortDescByVal l ↔ a ∈ l := by
  unfold sortDescByVal
  suffices h : ∀ (acc : List (String × ℚ)),
      (a ∈ l.foldl (fun acc x => insertDesc x acc) acc ↔ a ∈ acc ∨ a ∈ l) by
    simpa using h []
  induction l with
  | nil => intro acc; simp
  | cons x xs ih =>
    intro acc
    simp only [List.foldl_cons, ih (insertDesc x acc), mem_insertDesc, List.mem_cons]
    tauto

/-- The winner computation of `_heuristic_debate_scores`
(backend/services/gemini.py lines 330-337): sort role totals descending;
empty means tie, a top-two gap under 0.5 means tie, otherwise the top
role wins. -/
def heuristicWinner (overall : List (String × ℚ)) : String :=
  match sortDescByVal overall with
  | [] => "tie"
  | [p] => p.1
  | p :: q :: _ => if |p.2 - q.2| < 1/2 then "tie" else p.1

/-- A heuristic scoring payload: per-argument evaluations, per-role rounded
totals, and the winner (the summary/review strings of the source are
presentation only and not modelled). -/
structure HeuristicScores where
  per_argument : List ScoredArgument
  overall : List (String × ℚ)
  winner : String
deriving DecidableEq, Repr

/-- `_heuristic_debate_scores` from backend/services/gemini.py lines
309-348: score every argument, accumulate per-role totals, round them, and
pick the winner. -/
def heuristicDebateScores (arguments : List ArgPayload) (topic : String) : HeuristicScores :=
  let topic_profiles := identifyTopicProfiles topic
  let acc := arguments.foldl
    (fun (acc : List ScoredArgument × List (String × ℚ)) (argument : ArgPayload) =>
      let evaluation := scoreArgument argument topic_profiles
      (acc.1 ++ [evaluation.result],
       pyDictSet acc.2 argument.role
         (pyDictGet acc.2 argument.role 0 + evaluation.result.score)))
    ([], [])
  let overall := acc.2.map (fun kv => (kv.1, round2 kv.2))
  ⟨acc.1, overall, heuristicWinner overall⟩

/-- Claim C9: with at least two role totals, a top-two gap strictly under
0.5 yields winner "tie" (even when one total is strictly higher), and a
non-tie winner is the top role leading the runner-up by at least 0.5 (and
every total is at most the winner's). -/
theorem heuristic_winner_margin (overall : List (String × ℚ)) (p q : String × ℚ)
    (rest : List (String × ℚ)) (hsort : sortDescByVal overall = p :: q :: rest) :
    (|p.2 - q.2| < 1/2 → heuristicWinner overall = "tie") ∧
    (heuristicWinner overall ≠ "tie" →
      1/2 ≤ p.2 - q.2 ∧ heuristicWinner overall = p.1 ∧ ∀ x ∈ overall, x.2 ≤ p.2) := by
  have hwin : heuristicWinner overall
      = if |p.2 - q.2| < 1/2 then "tie" else p.1 := by
    unfold heuristicWinner
    rw [hsort]
  constructor
  · intro h
    rw [hwin, if_pos h]
  · intro hne
    rw [hwin] at hne ⊢
    by_cases h : |p.2 - q.2| < 1/2
    · rw [if_pos h] at hne
      exact absurd rfl hne
    · rw [if_neg h]
      push_neg at h
      have hsorted := sorted_sortDescByVal overall
      rw [hsort, List.pairwise_cons] at hsorted
      have hqp : q.2 ≤ p.2 := hsorted.1 q (by simp)
      have habs : |p.2 - q.2| = p.2 - q.2 := abs_of_nonneg (by linarith)
      refine ⟨by rw [habs] at h; exact h, rfl, ?_⟩
      intro x hx
      have hx2 : x ∈ p :: q :: rest := by
        rw [← hsort, mem_sortDescByVal]
        exact hx
      rcases List.mem_cons.mp hx2 with rfl | hx3
      · exact le_refl _
      · exact hsorted.1 x hx3

/-- Witness for `heuristic_winner_margin`: totals pro 6.0 and con 5.7
differ by 0.3, so the winner is "tie" although pro is strictly higher. -/
theorem heuristic_winner_margin_witness :
    sortDescByVal [("pro", (6:ℚ)), ("con", 57/10)]
      = [("pro", (6:ℚ)), ("con", 57/10)] ∧
    heuristicWinner [("pro", (6:ℚ)), ("con", 57/10)] = "tie" :=
  ⟨by norm_num [sortDescByVal, insertDesc],
   (heuristic_winner_margin [("pro", (6:ℚ)), ("con", 57/10)] ("pro", 6) ("con", 57/10) []
      (by norm_num [sortDescByVal, insertDesc])).1 (by rw [abs_lt]; constructor <;> norm_num)⟩

/-- Reading a key through a dict update. -/
theorem pyDictGet_set (d : List (String × ℚ)) (k kk : String) (v dflt : ℚ) :
    pyDictGet (pyDictSet d k v) kk dflt = if kk = k then v else pyDictGet d kk dflt := by
  induction d with
  | nil =>
    by_cases h : kk = k
    · simp [pyDictSet, pyDictGet, h]
    · have h2 : ¬(k = kk) := fun hh => h hh.symm
      simp [pyDictSet, pyDictGet, h, h2]
  | cons kv rest ih =>
    unfold pyDictSet
    by_cases hk : kv.1 = k
    · rw [if_pos hk]
      by_cases hkk : kk = k
      · simp [pyDictGet, hkk]
      · have h1 : ¬(k = kk) := fun hh => hkk hh.symm
        have h2 : ¬(kv.1 = kk) := by rw [hk]; exact h1
        simp [pyDictGet, h1, h2, hkk]
    · rw [if_neg hk]
      unfold pyDictGet
      by_cases hkv : kv.1 = kk
      · have hkk : ¬(kk = k) := fun hh => hk (hkv.trans hh)
        simp [hkv, hkk]
      · simp [hkv, ih]

/-- A key not in a dict reads as the default. -/
theorem pyDictGet_of_not_mem (d : List (String × ℚ)) (k : String) (dflt : ℚ)
    (h : k ∉ d.map Prod.fst) : pyDictGet d k dflt = dflt := by
  induction d with
  | nil => rfl
  | cons kv rest ih =>
    simp only [List.map_cons, List.mem_cons] at h
    push_neg at h
    unfold pyDictGet
    rw [if_neg (fun hh => h.1 hh.symm)]
    exact ih h.2

/-- The keys after a dict update: unchanged when the key was present,
appended otherwise. -/
theorem keys_pyDictSet (d : List (String × ℚ)) (k : String) (v : ℚ) :
    (pyDictSet d k v).map Prod.fst
      = if k ∈ d.map Prod.fst then d.map Prod.fst else d.map Prod.fst ++ [k] := by
  induction d with
  | nil => simp [pyDictSet]
  | cons kv rest ih =>
    unfold pyDictSet
    by_cases hk : kv.1 = k
    · simp [hk]
    · have hne : ¬(k = kv.1) := fun hh => hk hh.symm
      simp only [if_neg hk, List.map_cons, ih, List.mem_cons]
      by_cases hmem : k ∈ rest.map Prod.fst
      · simp [hmem, hne]
      · simp [hmem, hne]

/-- Key uniqueness of a dict. -/
def keysNodup (d : List (String × ℚ)) : Prop := (d.map Prod.fst).Nodup

/-- Dict update preserves key uniqueness. -/
theorem keysNodup_set (d : List (String × ℚ)) (k : String) (v : ℚ)
    (h : keysNodup d) : keysNodup (pyDictSet d k v) := by
  unfold keysNodup at h ⊢
  rw [keys_pyDictSet]
  by_cases hmem : k ∈ d.map Prod.fst
  · simpa [hmem] using h
  · rw [if_neg hmem]
    simpa [List.nodup_append, hmem] using h

/-- A fold whose step preserves key uniqueness produces a unique-key
dict. -/
theorem keysNodup_foldl {α : Type} (f : List (String × ℚ) → α → List (String × ℚ))
    (hf : ∀ d a, keysNodup d → keysNodup (f d a)) (l : List α) :
    ∀ d, keysNodup d → keysNodup (l.foldl f d) := by
  induction l with
  | nil => intro d h; simpa using h
  | cons a rest ih => intro d h; exact ih (f d a) (hf d a h)

/-- In a unique-key dict the value of a key is determined. -/
theorem keysNodup_mem_unique (d : List (String × ℚ)) (k : String) (v w : ℚ)
    (hnd : keysNodup d) (hv : (k, v) ∈ d) (hw : (k, w) ∈ d) : v = w := by
  induction d with
  | nil => simp at hv
  | cons kv rest ih =>
    unfold keysNodup at hnd
    simp only [List.map_cons, List.nodup_cons] at hnd
    rcases List.mem_cons.mp hv with rfl | hv2
    · rcases List.mem_cons.mp hw with heq | hw2
      · exact (congrArg Prod.snd heq).symm
      · exact absurd (List.mem_map_of_mem Prod.fst hw2) (by simpa using hnd.1)
    · rcases List.mem_cons.mp hw with rfl | hw2
      · exact absurd (List.mem_map_of_mem Prod.fst hv2) (by simpa using hnd.1)
      · exact ih hnd.2 hv2 hw2

/-- One per-argument score entry as `_decide` reads it: the entry role
string and its numeric score. -/
structure DecideEntry where
  role : String
  score : ℚ
deriving DecidableEq, Repr

/-- The total score a role string collects over the per-argument entries. -/
def sumScoresFor (entries : List DecideEntry) (k : String) : ℚ :=
  ((entries.filter (fun e => e.role = k)).map (fun e => e.score)).sum

/-- The overtime half of `_calculate_time_penalties` (backend/services/
judge.py lines 85-89): when the elapsed total exceeds the limit, both role
keys get half of `round(overtime / 30.0, 2)`. -/
def penalties_base (s : DebateSession) : List (String × ℚ) :=
  if s.total_elapsed_seconds > s.total_time_limit then
    pyDictSet
      (pyDictSet [] Role.pro.value
        (round2 (((s.total_elapsed_seconds - s.total_time_limit : Int) : ℚ) / 30) / 2))
      Role.con.value
      (round2 (((s.total_elapsed_seconds - s.total_time_limit : Int) : ℚ) / 30) / 2)
  else []

/-- `DebateJudge._calculate_time_penalties` from backend/services/judge.py
lines 83-93: the overtime split plus a flat 2.5 for every participant who
never spent recorded time. -/
def calculate_time_penalties (s : DebateSession) : List (String × ℚ) :=
  s.participants.foldl
    (fun pens rp =>
      if rp.2.time_spent_seconds = 0 then
        pyDictSet pens rp.1.value (pyDictGet pens rp.1.value 0 + 5/2)
      else pens)
    (penalties_base s)

/-- Python `max(items, key=value)` over a nonempty list: the first element
with the maximal value wins (later elements replace the best only when
strictly greater). -/
def pyMaxBy (h : String × ℚ) (t : List (String × ℚ)) : String × ℚ :=
  t.foldl (fun best x => if best.2 < x.2 then x else best) h

/-- The decision record `DebateJudge._decide` builds (summary and raw
payload fields are presentation only and not modelled). -/
structure Decision where
  per_argument : List DecideEntry
  overall : List (String × ℚ)
  winner : String
  penalties : List (String × ℚ)
deriving DecidableEq, Repr

/-- The adjusted per-role totals of `DebateJudge._decide` (backend/
services/judge.py lines 64-69): totals seeded at 0 for each participant
role, each entry score added to its role, each penalty subtracted. -/
def decide_totals (s : DebateSession) (per_argument : List DecideEntry) :
    List (String × ℚ) :=
  (calculate_time_penalties s).foldl
    (fun t kp => pyDictSet t kp.1 (pyDictGet t kp.1 0 - kp.2))
    (per_argument.foldl
      (fun t e => pyDictSet t e.role (pyDictGet t e.role 0 + e.score))
      (s.participants.foldl (fun t rp => pyDictSet t rp.1.value 0) []))

/-- `DebateJudge._decide` from backend/services/judge.py lines 62-81: the
adjusted totals and the key of the maximal total (tie when the totals dict
is empty). -/
def decide_stage (s : DebateSession) (per_argument : List DecideEntry) : Decision :=
  { per_argument := per_argument
    overall := decide_totals s per_argument
    winner :=
      match decide_totals s per_argument with
      | [] => "tie"
      | t0 :: ts => (pyMaxBy t0 ts).1
    penalties := calculate_time_penalties s }

/-- The participant-role seeding of the totals reads 0 at every key. -/
theorem totals0_get (ps : List (Role × Participant)) (k : String) :
    pyDictGet (ps.foldl (fun t rp => pyDictSet t rp.1.value 0) []) k 0 = 0 := by
  suffices h : ∀ t : List (String × ℚ), (∀ kk, pyDictGet t kk 0 = 0) →
      ∀ kk, pyDictGet (ps.foldl (fun t rp => pyDictSet t rp.1.value 0) t) kk 0 = 0 by
    exact h [] (fun kk => rfl) k
  induction ps with
  | nil => intro t ht kk; simpa using ht kk
  | cons rp rest ih =>
    intro t ht kk
    refine ih (pyDictSet t rp.1.value 0) ?_ kk
    intro kk2
    rw [pyDictGet_set]
    split
    · rfl
    · exact ht kk2

/-- Accumulating the per-argument entries adds each role string's score
total on top of the running dict. -/
theorem foldAdd_get (entries : List DecideEntry) (t : List (String × ℚ)) (k : String) :
    pyDictGet (entries.foldl
        (fun t e => pyDictSet t e.role (pyDictGet t e.role 0 + e.score)) t) k 0
      = pyDictGet t k 0 + sumScoresFor entries k := by
  induction entries generalizing t with
  | nil => simp [sumScoresFor]
  | cons e rest ih =>
    simp only [List.foldl_cons]
    rw [ih]
    have hsum : sumScoresFor (e :: rest) k
        = (if e.role = k then e.score else 0) + sumScoresFor rest k := by
      unfold sumScoresFor
      rw [List.filter_cons]
      by_cases h : e.role = k
      · simp [h]
      · simp [h]
    rw [hsum, pyDictGet_set]
    by_cases h : k = e.role
    · have h2 : e.role = k := h.symm
      rw [if_pos h, if_pos h2, h]
      ring
    · have h2 : ¬(e.role = k) := fun hh => h hh.symm
      rw [if_neg h, if_neg h2]
      ring

/-- Subtracting a unique-key penalties dict subtracts each key's penalty
from the running totals. -/
theorem foldSub_get (pens : List (String × ℚ)) (t : List (String × ℚ)) (k : String)
    (hnd : keysNodup pens) :
    pyDictGet (pens.foldl
        (fun t kp => pyDictSet t kp.1 (pyDictGet t kp.1 0 - kp.2)) t) k 0
      = pyDictGet t k 0 - pyDictGet pens k 0 := by
  induction pens generalizing t with
  | nil => simp [pyDictGet]
  | cons kp rest ih =>
    unfold keysNodup at hnd
    simp only [List.map_cons, List.nodup_cons] at hnd
    simp only [List.foldl_cons]
    rw [ih _ hnd.2]
    rw [pyDictGet_set]
    have hcons : pyDictGet (kp :: rest) k 0
        = if kp.1 = k then kp.2 else pyDictGet rest k 0 := rfl
    rw [hcons]
    by_cases h : k = kp.1
    · have h2 : kp.1 = k := h.symm
      rw [if_pos h, if_pos h2]
      have hrest : pyDictGet rest k 0 = 0 :=
        pyDictGet_of_not_mem rest k 0 (by rw [h]; exact hnd.1)
      rw [hrest, ← h]
      ring
    · have h2 : ¬(kp.1 = k) := fun hh => h hh.symm
      rw [if_neg h, if_neg h2]

/-- `lookupRole` on a cons cell. -/
theorem lookupRole_cons (rp : Role × Participant) (rest : List (Role × Participant))
    (r : Role) :
    lookupRole (rp :: rest) r = if rp.1 = r then some rp.2 else lookupRole rest r := by
  unfold lookupRole
  by_cases h : rp.1 = r
  · rw [List.find?_cons_of_pos _ (by simp [h]), if_pos h]
    rfl
  · rw [List.find?_cons_of_neg _ (by simp [h]), if_neg h]

/-- A role absent from the participants map looks up to nothing. -/
theorem lookupRole_of_not_mem (ps : List (Role × Participant)) (r : Role)
    (h : r ∉ ps.map Prod.fst) : lookupRole ps r = none := by
  induction ps with
  | nil => rfl
  | cons rp rest ih =>
    simp only [List.map_cons, List.mem_cons] at h
    push_neg at h
    rw [lookupRole_cons, if_neg (fun hh => h.1 hh.symm)]
    exact ih h.2

/-- The two role strings are distinct, so `Role.value` is injective. -/
theorem Role.value_inj (r1 r2 : Role) (h : r1.value = r2.value) : r1 = r2 := by
  cases r1 <;> cases r2 <;> first | rfl | (exfalso; exact absurd h (by decide))

/-- The zero-time participant pass of `_calculate_time_penalties` adds 2.5
exactly for a zero-time participant holding the role. -/
theorem foldPart_get (ps : List (Role × Participant)) (r : Role) :
    ∀ pens : List (String × ℚ), (ps.map Prod.fst).Nodup →
      pyDictGet (ps.foldl
          (fun pens rp =>
            if rp.2.time_spent_seconds = 0 then
              pyDictSet pens rp.1.value (pyDictGet pens rp.1.value 0 + 5/2)
            else pens) pens) r.value 0
        = pyDictGet pens r.value 0
          + (if (lookupRole ps r).any (fun p => p.time_spent_seconds = 0)
             then 5/2 else 0) := by
  induction ps with
  | nil =>
    intro pens _
    simp [lookupRole, Option.any]
  | cons rp rest ih =>
    intro pens hnd
    simp only [List.map_cons, List.nodup_cons] at hnd
    simp only [List.foldl_cons]
    rw [lookupRole_cons]
    by_cases hr : rp.1 = r
    · have hnone : lookupRole rest r = none :=
        lookupRole_of_not_mem rest r (by rw [← hr]; exact hnd.1)
      by_cases ht : rp.2.time_spent_seconds = 0
      · rw [if_pos ht, ih _ hnd.2, hnone, pyDictGet_set]
        rw [if_pos hr, hr]
        simp [Option.any, ht]
      · rw [if_neg ht, ih _ hnd.2, hnone, if_pos hr]
        simp [Option.any, ht]
    · have hval : ¬(r.value = rp.1.value) :=
        fun hh => hr (Role.value_inj r rp.1 hh).symm
      rw [if_neg hr]
      by_cases ht : rp.2.time_spent_seconds = 0
      · rw [if_pos ht, ih _ hnd.2, pyDictGet_set, if_neg hval]
      · rw [if_neg ht, ih _ hnd.2]

/-- The value of the overtime base at a role key. -/
theorem penalties_base_get (s : DebateSession) (r : Role) :
    pyDictGet (penalties_base s) r.value 0
      = if s.total_elapsed_seconds > s.total_time_limit then
          round2 (((s.total_elapsed_seconds - s.total_time_limit : Int) : ℚ) / 30) / 2
        else 0 := by
  unfold penalties_base
  split
  · rw [pyDictGet_set, pyDictGet_set]
    cases r
    · rw [if_neg (by decide), if_pos rfl]
    · rw [if_pos rfl]
  · rfl

/-- Closed form of `_calculate_time_penalties` at each role key: the
overtime half-share plus 2.5 when the role's participant spent no time. -/
theorem calculate_time_penalties_get (s : DebateSession) (r : Role)
    (hnd : (s.participants.map Prod.fst).Nodup) :
    pyDictGet (calculate_time_penalties s) r.value 0
      = (if s.total_elapsed_seconds > s.total_time_limit then
           round2 (((s.total_elapsed_seconds - s.total_time_limit : Int) : ℚ) / 30) / 2
         else 0)
        + (if (lookupRole s.participants r).any (fun p => p.time_spent_seconds = 0)
           then 5/2 else 0) := by
  unfold calculate_time_penalties
  rw [foldPart_get s.participants r (penalties_base s) hnd, penalties_base_get]

/-- The penalties dict has unique keys. -/
theorem keysNodup_penalties (s : DebateSession) :
    keysNodup (calculate_time_penalties s) := by
  unfold calculate_time_penalties
  refine keysNodup_foldl _ ?_ _ _ ?_
  · intro d a hd
    split
    · exact keysNodup_set _ _ _ hd
    · exact hd
  · unfold penalties_base
    split
    · exact keysNodup_set _ _ _ (keysNodup_set _ _ _ (by simp [keysNodup]))
    · simp [keysNodup]

/-- The adjusted totals dict has unique keys. -/
theorem keysNodup_decide_totals (s : DebateSession) (per_argument : List DecideEntry) :
    keysNodup (decide_totals s per_argument) := by
  unfold decide_totals
  refine keysNodup_foldl _ (fun d a hd => keysNodup_set _ _ _ hd) _ _ ?_
  refine keysNodup_foldl _ (fun d a hd => keysNodup_set _ _ _ hd) _ _ ?_
  exact keysNodup_foldl _ (fun d a hd => keysNodup_set _ _ _ hd) _ _ (by simp [keysNodup])

/-- Python `max(..., key=...)` returns the unique strict maximum when there
is one. -/
theorem pyMaxBy_strict_max (t : List (String × ℚ)) :
    ∀ (h : String × ℚ) (k : String) (v : ℚ),
      (k, v) ∈ h :: t →
      (∀ x ∈ h :: t, x ≠ (k, v) → x.2 < v) →
      pyMaxBy h t = (k, v) := by
  induction t with
  | nil =>
    intro h k v hmem _
    rcases List.mem_cons.mp hmem with heq | habs
    · exact heq.symm
    · simp at habs
  | cons x xs ih =>
    intro h k v hmem hmax
    have hstep : pyMaxBy h (x :: xs) = pyMaxBy (if h.2 < x.2 then x else h) xs := rfl
    rw [hstep]
    have hsub : ∀ y ∈ (if h.2 < x.2 then x else h) :: xs, y ∈ h :: x :: xs := by
      intro y hy
      rcases List.mem_cons.mp hy with rfl | hy2
      · split
        · exact List.mem_cons_of_mem _ (List.mem_cons_self _ _)
        · exact List.mem_cons_self _ _
      · exact List.mem_cons_of_mem _ (List.mem_cons_of_mem _ hy2)
    refine ih _ k v ?_ (fun y hy hyne => hmax y (hsub y hy) hyne)
    rcases List.mem_cons.mp hmem with hkh | hmem2
    · by_cases hc : h.2 < x.2
      · by_cases hx : x = (k, v)
        · rw [if_pos hc, hx]
          exact List.mem_cons_self _ _
        · exfalso
          have hxlt := hmax x (List.mem_cons_of_mem _ (List.mem_cons_self _ _)) hx
          have hv : v = h.2 := by rw [← hkh]
          linarith
      · rw [if_neg hc, ← hkh]
        exact List.mem_cons_self _ _
    · rcases List.mem_cons.mp hmem2 with hkx | hxs
      · by_cases hc : h.2 < x.2
        · rw [if_pos hc, ← hkx]
          exact List.mem_cons_self _ _
        · by_cases hh : h = (k, v)
          · rw [if_neg hc, hh]
            exact List.mem_cons_self _ _
          · exfalso
            have := hmax h (List.mem_cons_self _ _) hh
            have hxv : x.2 = v := by rw [← hkx]
            exact hc (by rw [hxv]; exact this)
      · exact List.mem_cons_of_mem _ hxs

/-- Claim C6: the Decide stage sums per-argument scores into per-role
totals and subtracts the time penalties (the rounded overtime penalty
halved onto each role when elapsed time exceeds the limit, plus a flat 2.5
per zero-time participant); the winner is "tie" when the totals dict is
empty and otherwise the role key whose adjusted total is strictly
higher than every other. -/
theorem decide_stage_spec (s : DebateSession) (per_argument : List DecideEntry)
    (hnd : (s.participants.map Prod.fst).Nodup) :
    (∀ k : String, pyDictGet (decide_stage s per_argument).overall k 0
        = sumScoresFor per_argument k - pyDictGet (calculate_time_penalties s) k 0) ∧
    (∀ r : Role, pyDictGet (calculate_time_penalties s) r.value 0
        = (if s.total_elapsed_seconds > s.total_time_limit then
             round2 (((s.total_elapsed_seconds - s.total_time_limit : Int) : ℚ) / 30) / 2
           else 0)
          + (if (lookupRole s.participants r).any (fun p => p.time_spent_seconds = 0)
             then 5/2 else 0)) ∧
    ((decide_stage s per_argument).overall = [] →
        (decide_stage s per_argument).winner = "tie") ∧
    (∀ k v, (k, v) ∈ (decide_stage s per_argument).overall →
        (∀ x ∈ (decide_stage s per_argument).overall, x.1 ≠ k → x.2 < v) →
        (decide_stage s per_argument).winner = k) := by
  refine ⟨?_, fun r => calculate_time_penalties_get s r hnd, ?_, ?_⟩
  · intro k
    have hov : (decide_stage s per_argument).overall = decide_totals s per_argument := rfl
    rw [hov]
    unfold decide_totals
    rw [foldSub_get _ _ _ (keysNodup_penalties s), foldAdd_get, totals0_get]
    ring
  · intro h
    have hov : (decide_stage s per_argument).overall = decide_totals s per_argument := rfl
    rw [hov] at h
    show (match decide_totals s per_argument with
      | [] => "tie"
      | t0 :: ts => (pyMaxBy t0 ts).1) = "tie"
    rw [h]
  · intro k v hmem hmax
    have hov : (decide_stage s per_argument).overall = decide_totals s per_argument := rfl
    rw [hov] at hmem hmax
    have hnodup := keysNodup_decide_totals s per_argument
    show (match decide_totals s per_argument with
      | [] => "tie"
      | t0 :: ts => (pyMaxBy t0 ts).1) = k
    cases hD : decide_totals s per_argument with
    | nil => rw [hD] at hmem; simp at hmem
    | cons t0 ts =>
      rw [hD] at hmem hmax
      unfold keysNodup at hnodup
      rw [hD] at hnodup
      have hmax2 : ∀ x ∈ t0 :: ts, x ≠ (k, v) → x.2 < v := by
        intro x hx hxne
        by_cases hk : x.1 = k
        · exfalso
          have hx2 : (k, x.2) ∈ t0 :: ts := by
            rw [← hk]
            exact hx
          have hval : x.2 = v := keysNodup_mem_unique (t0 :: ts) k x.2 v hnodup hx2 hmem
          have hxeq : x = (k, v) := by rw [← hk, ← hval]
          exact hxne hxeq
        · exact hmax x hx hk
      have hred : (match t0 :: ts with
        | [] => "tie"
        | t0 :: ts => (pyMaxBy t0 ts).1) = (pyMaxBy t0 ts).1 := rfl
      rw [hred, pyMaxBy_strict_max ts t0 k v hmem hmax2]

/-- Witness for `decide_stage_spec` at a concrete session and two score
entries: the totals equation at the "pro" key. -/
theorem decide_stage_spec_witness :
    (sampleDebating.participants.map Prod.fst).Nodup ∧
    pyDictGet (decide_stage sampleDebating [⟨"pro", 6⟩, ⟨"con", 5⟩]).overall "pro" 0
      = sumScoresFor [⟨"pro", 6⟩, ⟨"con", 5⟩] "pro"
        - pyDictGet (calculate_time_penalties sampleDebating) "pro" 0 :=
  ⟨by decide, (decide_stage_spec sampleDebating [⟨"pro", 6⟩, ⟨"con", 5⟩] (by decide)).1 "pro"⟩

/-- `SessionRegistry.set_topics` from backend/models/session.py lines
201-205: record the proposed topics and move the session to Veto.  The
method takes only the topics — no `refreshed` flag — and the session
state carries no topic-refresh counter, although backend/routes/api.py
line 134 calls it as `set_topics(session_id, topics, refreshed=...)` and
line 27 reads `session.topic_refreshes`. -/
def set_topics (s : DebateSession) (topics : List String) : DebateSession :=
  { s with topic_options := topics, status := SessionStatus.veto }

/-- Claim C7, evaluated against the code: `set_topics` records the topics
and sets status Veto (idempotently) and changes nothing else — in
particular there is no refresh counter in the session state for it to
increment. -/
theorem set_topics_state (s : DebateSession) (topics : List String) :
    (set_topics s topics).topic_options = topics ∧
    (set_topics s topics).status = SessionStatus.veto ∧
    (set_topics s topics).metadata = s.metadata ∧
    (set_topics s topics).participants = s.participants ∧
    (set_topics s topics).transcript = s.transcript ∧
    (set_topics s topics).current_turn = s.current_turn ∧
    (set_topics s topics).total_elapsed_seconds = s.total_elapsed_seconds ∧
    (set_topics s topics).chosen_topic = s.chosen_topic :=
  ⟨rfl, rfl, rfl, rfl, rfl, rfl, rfl, rfl⟩

/-- `FALLBACK_TOPICS` from backend/services/gemini.py lines 21-76: the
static fallback topic pool. -/
def FALLBACK_TOPICS : List String :=
  ["This House believes that governments should strictly regulate artificial intelligence, even at the cost of slower innovation.",
   "Tech companies, not governments, should bear primary responsibility for harms caused by AI systems.",
   "The use of AI in warfare should be banned under international law.",
   "AI will ultimately create more jobs than it destroys.",
   "Social media algorithms should be transparent and open to public auditing.",
   "Tech companies should be held legally liable for the spread of deepfakes.",
   "Governments should have the power to shut down social media during times of unrest.",
   "The EU AI Act will become the global model for regulating artificial intelligence.",
   "Countries that cannot develop their own AI models will become digital colonies of AI superpowers.",
   "UNESCO\x27s new standards on neurotechnology are an overreaction that will unnecessarily slow scientific progress.",
   "Rich countries should pay climate reparations to developing nations most affected by global warming.",
   "Developing countries should be allowed to prioritize economic growth over climate commitments.",
   "The world should phase out all fossil fuels by 2050, with no exceptions.",
   "Climate change is a bigger threat to global security than terrorism.",
   "AI will help more than it harms in the fight against climate change.",
   "Individual lifestyle changes (diet, travel, consumption) matter more than government policy in tackling climate change.",
   "The current international system (UN, IMF, World Bank) is failing and must be fundamentally redesigned.",
   "Rising tensions between the US and China over technology will define global politics in the next decade.",
   "Economic sanctions do more harm than good.",
   "The world should move toward a single global digital currency.",
   "Humanitarian intervention should be mandatory when governments commit mass human rights abuses.",
   "The age of nation-states is ending; global problems need global governance.",
   "A universal basic income is the best response to AI-driven job losses.",
   "Billionaires should not exist in a just society.",
   "Global trade agreements benefit corporations more than ordinary workers.",
   "Remote work should remain the default for knowledge workers after the pandemic era.",
   "The gig economy (Uber, Foodpanda, freelancing platforms) exploits workers more than it empowers them.",
   "Governments should heavily tax automated companies that replace human workers with AI and robots.",
   "Governments should have no role in regulating online speech beyond existing offline laws.",
   "Pakistan\x27s recent social media regulations are necessary to combat fake news.",
   "Social media platforms should be treated as public utilities, not private companies.",
   "Anonymity on the internet does more harm than good.",
   "Internet shutdowns can never be justified in a democracy.",
   "Platforms should be legally required to remove hate speech and misinformation within 24 hours.",
   "Digital surveillance in the name of national security is a serious threat to human rights.",
   "Feminism is misunderstood and unfairly demonized in many conservative societies.",
   "Pakistan\x27s progress on gender equality is more symbolic than real.",
   "Online harassment is the biggest barrier to women\x27s participation in digital spaces.",
   "Quotas for women in parliament and corporate boards are necessary to speed up equality.",
   "Media in Pakistan does more to reinforce gender stereotypes than to challenge them.",
   "Schools should teach consent, gender equality, and digital safety as compulsory subjects.",
   "Social movements like Aurat March are essential for democracy.",
   "Traditional exams should be replaced with project-based assessment.",
   "Universities focus too much on theory and not enough on real-world skills.",
   "Studying abroad contributes to \"brain drain\" and harms developing countries.",
   "Schools should ban smartphones during class time.",
   "Governments should subsidize higher education for all, not just top performers.",
   "English-medium education is increasing inequality in countries like Pakistan.",
   "Pop culture (Netflix, K-dramas, TikTok) has more influence on youth values than family or religion.",
   "Mental health services should be free and integrated into all schools and universities.",
   "Pakistan\x27s priority should be education reform rather than mega infrastructure projects.",
   "Pakistan needs stronger data protection and privacy laws, even if they make business harder.",
   "Internet shutdowns and platform bans are damaging Pakistan\x27s democracy and economy.",
   "Pakistan should invest more in renewable energy than in traditional power projects."]

/-- The outcome of the Gemini topic call as `generate_topics`
(backend/services/gemini.py lines 93-118) observes it: the client may be
unconfigured, the network call may raise, or a response comes back whose
extracted topic list may be empty/unusable. -/
inductive OracleTopics where
  | notConfigured
  | callRaised
  | returned (topics : List String)
deriving DecidableEq, Repr

/-- The randomness consumed by `random.sample(FALLBACK_TOPICS, k=3)`:
three distinct indices into the fallback pool. -/
structure Sample3 where
  i : Fin FALLBACK_TOPICS.length
  j : Fin FALLBACK_TOPICS.length
  k : Fin FALLBACK_TOPICS.length
  hij : i ≠ j
  hik : i ≠ k
  hjk : j ≠ k

/-- The triple `random.sample` produces for the given indices. -/
def sampleFallback (sample : Sample3) : List String :=
  [FALLBACK_TOPICS.get sample.i, FALLBACK_TOPICS.get sample.j,
   FALLBACK_TOPICS.get sample.k]

/-- `generate_topics` from backend/services/gemini.py lines 93-118: a
configured client whose call raises propagates a `GeminiError` (the
`except` clause re-raises); an unconfigured client — or a usable-but-empty
response — falls back to a random triplet from the static pool. -/
def generate_topics (oracle : OracleTopics) (sample : Sample3) :
    Except String (List String) :=
  match oracle with
  | .callRaised => Except.error "Gemini topic generation failed"
  | .returned topics =>
    if topics ≠ [] then Except.ok topics else Except.ok (sampleFallback sample)
  | .notConfigured => Except.ok (sampleFallback sample)

/-- Concrete sample indices for the witnesses. -/
def sampleIndices : Sample3 :=
  ⟨⟨0, by decide⟩, ⟨1, by decide⟩, ⟨2, by decide⟩, by decide, by decide, by decide⟩

/-- Counterexample to claim C8 as stated: when the configured topic oracle
call fails, `generate_topics` raises a `GeminiError` instead of returning
three fallback topics. -/
theorem generate_topics_counterexample :
    generate_topics OracleTopics.callRaised sampleIndices
      = Except.error "Gemini topic generation failed" := rfl

/-- Claim C8 (amended): when the topic oracle is unconfigured the topic
suggestion does not raise and returns three topics drawn from the static
fallback pool; when the configured oracle call fails, `generate_topics`
raises instead of falling back. -/
theorem generate_topics_amended (sample : Sample3) (oracle : OracleTopics) :
    (oracle = OracleTopics.notConfigured →
      generate_topics oracle sample = Except.ok (sampleFallback sample) ∧
      (sampleFallback sample).length = 3 ∧
      ∀ t ∈ sampleFallback sample, t ∈ FALLBACK_TOPICS) ∧
    (oracle = OracleTopics.callRaised →
      ∀ ts, generate_topics oracle sample ≠ Except.ok ts) := by
  constructor
  · intro h
    subst h
    refine ⟨rfl, rfl, ?_⟩
    intro t ht
    unfold sampleFallback at ht
    rcases List.mem_cons.mp ht with rfl | ht2
    · exact List.get_mem _ _ _
    rcases List.mem_cons.mp ht2 with rfl | ht3
    · exact List.get_mem _ _ _
    rcases List.mem_cons.mp ht3 with rfl | ht4
    · exact List.get_mem _ _ _
    · simp at ht4
  · intro h ts
    subst h
    simp [generate_topics]

/-- Witness for `generate_topics_amended` at concrete sample indices. -/
theorem generate_topics_amended_witness :
    generate_topics OracleTopics.notConfigured sampleIndices
      = Except.ok (sampleFallback sampleIndices) ∧
    (sampleFallback sampleIndices).length = 3 :=
  ⟨((generate_topics_amended sampleIndices OracleTopics.notConfigured).1 rfl).1,
   ((generate_topics_amended sampleIndices OracleTopics.notConfigured).1 rfl).2.1⟩
